import Mathlib

/-!
Verification of the OpenClaw RBAC policy engine against its specification.

The TypeScript sources are shallowly embedded: JS strings become `List Char`
(`Str`), JS records/Maps become association lists in insertion order, the
module-level mutable state of the command guard and the rate limiter becomes
explicit state passing, thrown exceptions become `Except`, and `Date.now()`
becomes an explicit `now` argument.
-/

/-- JS strings are modelled as lists of characters. -/
abbrev Str := List Char

/-- Coerce a Lean string literal into the model. -/
def str (s : String) : Str := s.data

/-- JS `String.prototype.split(sep)` for a single-character separator:
`"" ↦ [""]`, `"a:b" ↦ ["a","b"]`, `":" ↦ ["",""]`. -/
def splitOnChar (sep : Char) (s : Str) : List Str :=
  s.foldr (fun c acc =>
    match acc with
    | [] => [[c]]
    | a :: rest => if c = sep then [] :: (a :: rest) else (c :: a) :: rest) [[]]

/-- JS `String.prototype.trim()`: strip whitespace from both ends. -/
def jsTrim (s : Str) : Str :=
  ((s.dropWhile Char.isWhitespace).reverse.dropWhile Char.isWhitespace).reverse

/-- JS `String.prototype.toLowerCase()`. -/
def jsToLower (s : Str) : Str := s.map Char.toLower

/-- First-match lookup in an insertion-ordered record (JS `record[key]` /
`Map.get`). -/
def recordGet {α : Type} (m : List (Str × α)) (k : Str) : Option α :=
  (m.find? (fun p => p.1 = k)).map (·.2)

/-- JS `record[key] = v` / `Map.set`: replace in place when the key exists,
append otherwise. -/
def recordSet {α : Type} (m : List (Str × α)) (k : Str) (v : α) : List (Str × α) :=
  if (m.find? (fun p => p.1 = k)).isSome
  then m.map (fun p => if p.1 = k then (p.1, v) else p)
  else m ++ [(k, v)]

/-! ## Data model (`src/config.ts` types) -/

/-- A field that is either the wildcard marker `"*"` or an explicit string
list (`string[] | "*"` in the source). -/
inductive StarOrList where
  | star : StarOrList
  | list (xs : List Str) : StarOrList
deriving DecidableEq

/-- Source `RBACRoleConfig`. -/
structure RBACRoleConfig where
  users : StarOrList
  tools : StarOrList
  channels : StarOrList
deriving DecidableEq

/-- Source `RateLimitConfig` (the `action` field is the constant `"suppress-logs"`). -/
structure RateLimitConfig where
  maxBlockedPerMinute : Int
deriving DecidableEq

/-- Source `SystemCommandsConfig.mode`. -/
inductive GuardMode where
  | blocklist : GuardMode
  | allowlist : GuardMode
deriving DecidableEq

/-- Source `SystemCommandsConfig`. -/
structure SystemCommandsConfig where
  mode : GuardMode
  blocked : List Str
  allowed : List Str
  guestHelp : Option Str
  blockResponse : Str
deriving DecidableEq

/-- Source `failSafe` values. -/
inductive FailSafe where
  | deny : FailSafe
  | allow : FailSafe
deriving DecidableEq

/-- Source `RBACConfig`: the loaded policy.  `roles` and `toolGroups` are
insertion-ordered records. -/
structure RBACConfig where
  roles : List (Str × RBACRoleConfig)
  defaultRole : Str
  logBlocked : Bool
  logAllowed : Bool
  failSafe : FailSafe
  toolGroups : List (Str × List Str)
  rateLimit : Option RateLimitConfig
  systemCommands : Option SystemCommandsConfig
  warnings : List Str
deriving DecidableEq

/-! ## Tool guard (`src/tool-guard.ts`) -/

/-- Source `ToolGuardResult`. -/
structure ToolGuardResult where
  allowed : Bool
  role : Str
  reason : Option Str
deriving DecidableEq

/-- Source `expandTools`: split a raw tool list into exact names and wildcard
patterns; `_*`-suffixed entries are kept verbatim as wildcards, `@`-prefixed
entries are expanded through `config.toolGroups` into the exact bucket, and
everything else is an exact name. -/
def expandTools (tools : List Str) (config : RBACConfig) : List Str × List Str :=
  tools.foldl (fun acc entry =>
    if (str "_*").isSuffixOf entry then
      (acc.1, acc.2 ++ [entry])
    else if (str "@").isPrefixOf entry then
      match recordGet config.toolGroups (entry.drop 1) with
      | some groupTools => (acc.1 ++ groupTools, acc.2)
      | none => acc
    else
      (acc.1 ++ [entry], acc.2)) ([], [])

/-- The wildcard test of `checkToolAccess` step 2: strip the trailing `*`
(keeping the `_`), then require a strict prefix. -/
def wildcardMatches (toolName pattern : Str) : Bool :=
  pattern.dropLast.isPrefixOf toolName && decide (pattern.dropLast.length < toolName.length)

/-- Source `checkToolAccess`. -/
def checkToolAccess (toolName roleName : Str) (config : RBACConfig) : ToolGuardResult :=
  match recordGet config.roles roleName with
  | none =>
      { allowed := false, role := roleName,
        reason := some (str "Unknown role \"" ++ roleName ++ str "\"") }
  | some role =>
      match role.tools with
      | .star => { allowed := true, role := roleName, reason := none }
      | .list toolList =>
          let expanded := expandTools toolList config
          if toolName ∈ expanded.1 then
            { allowed := true, role := roleName, reason := none }
          else if expanded.2.any (wildcardMatches toolName) then
            { allowed := true, role := roleName, reason := none }
          else
            { allowed := false, role := roleName,
              reason := some (str "Role \"" ++ roleName ++
                str "\" does not have access to tool \"" ++ toolName ++ str "\"") }

/-! ## Role resolver (`src/role-resolver.ts`) -/

/-- The match test of `resolveRole`: users wildcard or membership, and
channels wildcard or membership (a `null` channel only matches the
wildcard). -/
def roleMatches (peerId : Str) (channel : Option Str) (role : RBACRoleConfig) : Bool :=
  (match role.users with
   | .star => true
   | .list us => us.contains peerId) &&
  (match role.channels with
   | .star => true
   | .list cs =>
       match channel with
       | none => false
       | some c => cs.contains c)

/-- Source `resolveRole`: first matching role in declared order, else
`defaultRole`. -/
def resolveRole (peerId : Str) (channel : Option Str) (config : RBACConfig) : Str :=
  go config.roles
where
  go : List (Str × RBACRoleConfig) → Str
  | [] => config.defaultRole
  | (roleName, role) :: rest =>
      if roleMatches peerId channel role then roleName else go rest

/-! ## Command guard (`src/command-guard.ts`) -/

/-- Source `STALE_MS`: pending blocks older than 10 seconds are discarded. -/
def STALE_MS : Int := 10000

/-- Source `PendingBlock`. -/
structure PendingBlock where
  command : Str
  timestamp : Int
deriving DecidableEq

/-- Source `extractCommand`: `null` unless the (already trimmed, lowercased) message
starts with `/`; otherwise the slice up to the first space character
(`indexOf(" ")`), or the whole string when there is no space. -/
def extractCommand (trimmed : Str) : Option Str :=
  if (str "/").isPrefixOf trimmed then
    let spaceIdx := trimmed.indexOf ' '
    some (if spaceIdx = trimmed.length then trimmed else trimmed.take spaceIdx)
  else
    none

/-- Source `matchBlockedCommand`. -/
def matchBlockedCommand (content : Str) (config : SystemCommandsConfig) : Option Str :=
  let trimmed := jsToLower (jsTrim content)
  match extractCommand trimmed with
  | none => none
  | some command =>
      if config.guestHelp.isSome && command = str "/help" then
        some (str "/help")
      else
        match config.mode with
        | .allowlist => if command ∈ config.allowed then none else some command
        | .blocklist => if command ∈ config.blocked then some command else none

/-- Source `setPendingBlock`: the module-level `pendingBlock` slot becomes explicit
state; `Date.now()` becomes the `now` argument. -/
def setPendingBlock (command : Str) (now : Int) (_slot : Option PendingBlock) :
    Option PendingBlock :=
  some { command := command, timestamp := now }

/-- Source `consumePendingBlock`: returns the blocked command (or `none` for an
empty or stale slot) together with the slot state after the call. -/
def consumePendingBlock (now : Int) (slot : Option PendingBlock) :
    Option Str × Option PendingBlock :=
  match slot with
  | none => (none, none)
  | some block =>
      if now - block.timestamp > STALE_MS then (none, none)
      else (some block.command, none)

/-- Source `getBlockResponse`. -/
def getBlockResponse (command : Str) (config : SystemCommandsConfig) : Str :=
  match config.guestHelp with
  | some help => if command = str "/help" then help else config.blockResponse
  | none => config.blockResponse

/-- Source `isAdminByTools`. -/
def isAdminByTools (roleName : Str) (roles : List (Str × RBACRoleConfig)) : Bool :=
  match recordGet roles roleName with
  | some role => role.tools = .star
  | none => false

/-! ## Rate limiter (`src/rate-limiter.ts`) -/

/-- Source `WINDOW_MS`. -/
def WINDOW_MS : Int := 60000

/-- Source `PeerWindow`. -/
structure PeerWindow where
  windowStart : Int
  logged : Nat
  suppressed : Nat
deriving DecidableEq

/-- The `RateLimiter` object: constructor argument plus the `peers` map. -/
structure RateLimiterState where
  maxPerMinute : Nat
  peers : List (Str × PeerWindow)
deriving DecidableEq

/-- Source `new RateLimiter(maxPerMinute)`. -/
def RateLimiter.mk0 (maxPerMinute : Nat) : RateLimiterState :=
  { maxPerMinute := maxPerMinute, peers := [] }

/-- Source `RateLimiter.shouldLog`: returns the decision together with the updated
limiter state; `Date.now()` becomes the `now` argument. -/
def shouldLog (now : Int) (peerId : Str) (rl : RateLimiterState) :
    Bool × RateLimiterState :=
  let fresh : PeerWindow := { windowStart := now, logged := 0, suppressed := 0 }
  let peer :=
    match recordGet rl.peers peerId with
    | none => fresh
    | some p => if WINDOW_MS ≤ now - p.windowStart then fresh else p
  if peer.logged < rl.maxPerMinute then
    (true, { rl with peers := recordSet rl.peers peerId { peer with logged := peer.logged + 1 } })
  else
    (false, { rl with peers := recordSet rl.peers peerId { peer with suppressed := peer.suppressed + 1 } })

/-- Source `RateLimiter.getSuppressed`. -/
def getSuppressed (now : Int) (peerId : Str) (rl : RateLimiterState) : Nat :=
  match recordGet rl.peers peerId with
  | none => 0
  | some peer => if WINDOW_MS ≤ now - peer.windowStart then 0 else peer.suppressed

/-! ## Session-key parser (`src/session-key-parser.ts`) -/

/-- Source `ParsedSessionKey`. -/
structure ParsedSessionKey where
  peerId : Str
  channel : Option Str
  peerKind : Str
deriving DecidableEq

/-- Source `PEER_KINDS`. -/
def PEER_KINDS : List Str := [str "direct", str "group", str "channel"]

/-- The scanning loop of `parseSessionKey`:
`for (let i = 2; i < parts.length - 1; i++)`.  The loop guard
`i < parts.length - 1` says at least two segments remain at index `i`, so the
loop is phrased structurally over the remaining suffix while `i` tracks the
index; `seg = parts[i]` and `next = parts[i + 1]`. -/
def scanFrom (parts : List Str) (i : Nat) : List Str → Option ParsedSessionKey
  | seg :: next :: rest =>
      if seg ∈ PEER_KINDS then
        if next = [] then none
        else
          some { peerId := next,
                 channel := if 3 ≤ i then some (parts.getD 2 []) else none,
                 peerKind := seg }
      else
        scanFrom parts (i + 1) (next :: rest)
  | _ => none

/-- Source `parseSessionKey`. -/
def parseSessionKey (sessionKey : Str) : Option ParsedSessionKey :=
  let parts := splitOnChar ':' sessionKey
  if parts.length < 4 then none
  else scanFrom parts 2 (parts.drop 2)

/-! ## Configuration loader (`src/config.ts`, `rbacConfigSchema.parse`)

The loader takes an untyped deserialized document.  Documents are modelled by
`Json`; a missing (`undefined`) field is an absent key, looked up as
`Option Json`.  Thrown `Error`s become `Except.error` carrying the message. -/

/-- Untyped configuration documents (numbers restricted to integers, which
covers every value the loader inspects). -/
inductive Json where
  | str (s : Str)
  | num (n : Int)
  | bool (b : Bool)
  | null
  | arr (xs : List Json)
  | obj (fields : List (Str × Json))

/-- Decimal digits of a natural number. -/
def natToStr (n : Nat) : Str :=
  if h : n < 10 then [Char.ofNat (48 + n)]
  else natToStr (n / 10) ++ [Char.ofNat (48 + n % 10)]
termination_by n
decreasing_by exact Nat.div_lt_self (by omega) (by omega)

/-- Decimal rendering of an integer. -/
def intToStr (n : Int) : Str :=
  if n < 0 then '-' :: natToStr n.natAbs else natToStr n.natAbs

mutual

/-- JS `String(value)` (scalars rendered exactly; arrays joined with `,`,
objects rendered as `[object Object]`). -/
def jsStringOf : Json → Str
  | .str s => s
  | .num n => intToStr n
  | .bool true => str "true"
  | .bool false => str "false"
  | .null => str "null"
  | .arr xs => jsStringList xs
  | .obj _ => str "[object Object]"

/-- JS `Array.prototype.join(",")` as used by `String(array)`; `null`
elements render empty. -/
def jsStringList : List Json → Str
  | [] => []
  | [x] => match x with | .null => [] | _ => jsStringOf x
  | x :: rest => (match x with | .null => [] | _ => jsStringOf x) ++ ',' :: jsStringList rest

end

/-- Source `assertObject`: only plain objects pass (`null`, arrays and scalars all
fail with the same message, matching the `!value || typeof !== "object" ||
Array.isArray` test). -/
def assertObject (value : Json) (label : Str) : Except Str (List (Str × Json)) :=
  match value with
  | .obj fields => .ok fields
  | _ => .error (label ++ str " must be an object")

/-- Source `value.every((v) => typeof v === "string")` plus the cast. -/
def asStrList : List Json → Option (List Str)
  | [] => some []
  | x :: rest =>
      match x with
      | .str s => (asStrList rest).map (s :: ·)
      | _ => none

/-- Error message of `parseUsers`. -/
def usersFieldError (roleName : Str) : Str :=
  str "roles." ++ roleName ++ str ".users must be \"*\" or string[]"

/-- Source `parseUsers`. -/
def parseUsers (value : Option Json) (roleName : Str) : Except Str StarOrList :=
  match value with
  | some (.str s) =>
      if s = str "*" then .ok .star else .error (usersFieldError roleName)
  | some (.arr xs) =>
      match asStrList xs with
      | some l => .ok (.list l)
      | none => .error (usersFieldError roleName)
  | _ => .error (usersFieldError roleName)

/-- Error message of `parseTools`. -/
def toolsFieldError (roleName : Str) : Str :=
  str "roles." ++ roleName ++ str ".tools must be \"*\" or string[]"

/-- Source `parseTools`. -/
def parseTools (value : Option Json) (roleName : Str) : Except Str StarOrList :=
  match value with
  | some (.str s) =>
      if s = str "*" then .ok .star else .error (toolsFieldError roleName)
  | some (.arr xs) =>
      match asStrList xs with
      | some l => .ok (.list l)
      | none => .error (toolsFieldError roleName)
  | _ => .error (toolsFieldError roleName)

/-- Source `parseChannels`: like `parseUsers` but an absent field defaults to the
wildcard. -/
def parseChannels (value : Option Json) (roleName : Str) : Except Str StarOrList :=
  match value with
  | none => .ok .star
  | some (.str s) =>
      if s = str "*" then .ok .star
      else .error (str "roles." ++ roleName ++ str ".channels must be \"*\" or string[]")
  | some (.arr xs) =>
      match asStrList xs with
      | some l => .ok (.list l)
      | none => .error (str "roles." ++ roleName ++ str ".channels must be \"*\" or string[]")
  | some _ => .error (str "roles." ++ roleName ++ str ".channels must be \"*\" or string[]")

/-- The per-entry body of `parseToolGroups`. -/
def parseToolGroupsEntries : List (Str × Json) → Except Str (List (Str × List Str))
  | [] => .ok []
  | (name, tools) :: rest =>
      match tools with
      | .arr xs =>
          match asStrList xs with
          | some l => do
              let r ← parseToolGroupsEntries rest
              .ok ((name, l) :: r)
          | none => .error (str "toolGroups." ++ name ++ str " must be string[]")
      | _ => .error (str "toolGroups." ++ name ++ str " must be string[]")

/-- Source `parseToolGroups`. -/
def parseToolGroups (value : Option Json) : Except Str (List (Str × List Str)) :=
  match value with
  | none => .ok []
  | some .null => .ok []
  | some j => do
      let obj ← assertObject j (str "toolGroups")
      parseToolGroupsEntries obj

/-- Source `parseRateLimit`. -/
def parseRateLimit (value : Option Json) : Except Str (Option RateLimitConfig) :=
  match value with
  | none => .ok none
  | some .null => .ok none
  | some j => do
      let obj ← assertObject j (str "rateLimit")
      match recordGet obj (str "maxBlockedPerMinute") with
      | some (.num n) =>
          if n < 1 then .error (str "rateLimit.maxBlockedPerMinute must be a positive number")
          else .ok (some { maxBlockedPerMinute := n })
      | _ => .error (str "rateLimit.maxBlockedPerMinute must be a positive number")

/-- Source `normalizeCommands` on a single entry: lowercase, trim, ensure a leading
`/`. -/
def normalizeCommand (cmd : Str) : Str :=
  let c := jsTrim (jsToLower cmd)
  if (str "/").isPrefixOf c then c else '/' :: c

/-- Source `normalizeCommands`. -/
def normalizeCommands (arr : List Str) : List Str := arr.map normalizeCommand

/-- Source `parseSystemCommands`. -/
def parseSystemCommands (value : Option Json) : Except Str (Option SystemCommandsConfig) :=
  match value with
  | none => .ok none
  | some .null => .ok none
  | some j => do
      let obj ← assertObject j (str "systemCommands")
      let resolvedMode ←
        match recordGet obj (str "mode") with
        | none => Except.ok GuardMode.blocklist
        | some (.str s) =>
            if s = str "blocklist" then Except.ok GuardMode.blocklist
            else if s = str "allowlist" then Except.ok GuardMode.allowlist
            else Except.error (str "systemCommands.mode must be \"blocklist\" or \"allowlist\"")
        | some _ => Except.error (str "systemCommands.mode must be \"blocklist\" or \"allowlist\"")
      let blockedList : Option (List Str) ←
        match recordGet obj (str "blocked") with
        | none => Except.ok none
        | some .null => Except.ok none
        | some (.arr xs) =>
            match asStrList xs with
            | some l => Except.ok (some l)
            | none => Except.error (str "systemCommands.blocked must be string[]")
        | some _ => Except.error (str "systemCommands.blocked must be string[]")
      if resolvedMode = GuardMode.blocklist ∧ (blockedList = none ∨ blockedList = some []) then
        Except.error (str "systemCommands.blocked is required and must be non-empty in blocklist mode")
      else do
      let allowedList : Option (List Str) ←
        match recordGet obj (str "allowed") with
        | none => Except.ok none
        | some .null => Except.ok none
        | some (.arr xs) =>
            match asStrList xs with
            | some l => Except.ok (some l)
            | none => Except.error (str "systemCommands.allowed must be string[]")
        | some _ => Except.error (str "systemCommands.allowed must be string[]")
      if resolvedMode = GuardMode.allowlist ∧ allowedList = none then
        Except.error (str "systemCommands.allowed is required in allowlist mode")
      else do
      let guestHelp : Option Str ←
        match recordGet obj (str "guestHelp") with
        | none => Except.ok none
        | some .null => Except.ok none
        | some (.str s) => Except.ok (some s)
        | some _ => Except.error (str "systemCommands.guestHelp must be a string or null")
      match recordGet obj (str "blockResponse") with
      | some (.str blockResponse) =>
          .ok (some { mode := resolvedMode,
                      blocked := normalizeCommands (blockedList.getD []),
                      allowed := normalizeCommands (allowedList.getD []),
                      guestHelp := guestHelp,
                      blockResponse := blockResponse })
      | _ => .error (str "systemCommands.blockResponse must be a string")

/-- Source `parseFailSafe`. -/
def parseFailSafe (value : Option Json) : Except Str FailSafe :=
  match value with
  | none => .ok .deny
  | some .null => .ok .deny
  | some (.str s) =>
      if s = str "deny" then .ok .deny
      else if s = str "allow" then .ok .allow
      else .error (str "failSafe must be \"deny\" or \"allow\", got \"" ++ s ++ str "\"")
  | some v => .error (str "failSafe must be \"deny\" or \"allow\", got \"" ++ jsStringOf v ++ str "\"")

/-- The ordering diagnostic thrown when a wildcard-users role precedes a
specific-users role. -/
def orderingError (firstWildcardRole roleName : Str) : Str :=
  str "Role \"" ++ firstWildcardRole ++
  str "\" has wildcard users \"*\" before role \"" ++ roleName ++
  str "\" with specific users. Wildcard roles must come after specific roles (first match wins)."

/-- Warning recorded for an empty `tools` array. -/
def emptyToolsWarning (roleName : Str) : Str :=
  str "Role \"" ++ roleName ++ str "\" has empty tools array — it will block all tool access."

/-- Warning recorded for an empty `channels` array. -/
def emptyChannelsWarning (roleName : Str) : Str :=
  str "Role \"" ++ roleName ++ str "\" has empty channels array — it will match no channels."

/-- The structural part of one iteration of the roles loop: object check and
the three field parsers (`config.ts` lines 287–290). -/
def parseRoleFields (roleName : Str) (roleRaw : Json) : Except Str RBACRoleConfig := do
  let role ← assertObject roleRaw (str "roles." ++ roleName)
  let users ← parseUsers (recordGet role (str "users")) roleName
  let tools ← parseTools (recordGet role (str "tools")) roleName
  let channels ← parseChannels (recordGet role (str "channels")) roleName
  .ok { users := users, tools := tools, channels := channels }

/-- The roles loop of `rbacConfigSchema.parse`: parse each role in declared
order, enforce the wildcard-ordering rule, accumulate warnings and the
parsed roles. -/
def parseRolesLoop : List (Str × Json) → Option Str →
    List (Str × RBACRoleConfig) → List Str →
    Except Str (List (Str × RBACRoleConfig) × List Str)
  | [], _, accRoles, accWarnings => .ok (accRoles, accWarnings)
  | (roleName, roleRaw) :: rest, firstWildcardRole, accRoles, accWarnings => do
      let role ← parseRoleFields roleName roleRaw
      let fw ←
        match role.users with
        | .star => Except.ok (some (firstWildcardRole.getD roleName))
        | .list _ =>
            match firstWildcardRole with
            | some w => Except.error (orderingError w roleName)
            | none => Except.ok none
      let warnings1 :=
        match role.tools with
        | .list [] => accWarnings ++ [emptyToolsWarning roleName]
        | _ => accWarnings
      let warnings2 :=
        match role.channels with
        | .list [] => warnings1 ++ [emptyChannelsWarning roleName]
        | _ => warnings1
      parseRolesLoop rest fw (recordSet accRoles roleName role) warnings2

/-- The `@group` reference scan over one role's tool list
(`config.ts` lines 335–344). -/
def checkToolsRefs (roleName : Str) : List Str → List (Str × List Str) → Except Str Unit
  | [], _ => .ok ()
  | tool :: rest, toolGroups =>
      if (str "@").isPrefixOf tool then
        match recordGet toolGroups (tool.drop 1) with
        | some _ => checkToolsRefs roleName rest toolGroups
        | none =>
            .error (str "Role \"" ++ roleName ++ str "\" references tool group \"" ++ tool ++
              str "\" but no matching entry exists in toolGroups.")
      else
        checkToolsRefs roleName rest toolGroups

/-- The `@group` validation loop over all roles. -/
def validateGroupRefs : List (Str × RBACRoleConfig) → List (Str × List Str) → Except Str Unit
  | [], _ => .ok ()
  | (roleName, role) :: rest, toolGroups =>
      match role.tools with
      | .star => validateGroupRefs rest toolGroups
      | .list ts => do
          checkToolsRefs roleName ts toolGroups
          validateGroupRefs rest toolGroups

/-- Source `rbacConfigSchema.parse`. -/
def rbacParse (value : Json) : Except Str RBACConfig := do
  let cfg ← assertObject value (str "rbac config")
  let rolesRaw ← assertObject ((recordGet cfg (str "roles")).getD .null) (str "rbac config.roles")
  let rolesAndWarnings ← parseRolesLoop rolesRaw none [] []
  let roles := rolesAndWarnings.1
  let warnings := rolesAndWarnings.2
  if roles.length = 0 then
    .error (str "rbac config.roles must have at least one role")
  else do
    let defaultRole :=
      match recordGet cfg (str "defaultRole") with
      | some (.str s) => s
      | _ => str "guest"
    if (recordGet roles defaultRole).isNone then
      .error (str "defaultRole \"" ++ defaultRole ++ str "\" not found in roles")
    else do
      let toolGroups ← parseToolGroups (recordGet cfg (str "toolGroups"))
      let failSafe ← parseFailSafe (recordGet cfg (str "failSafe"))
      let rateLimit ← parseRateLimit (recordGet cfg (str "rateLimit"))
      let systemCommands ← parseSystemCommands (recordGet cfg (str "systemCommands"))
      validateGroupRefs roles toolGroups
      .ok { roles := roles,
            defaultRole := defaultRole,
            logBlocked := (match recordGet cfg (str "logBlocked") with
                           | some (.bool false) => false
                           | _ => true),
            logAllowed := (match recordGet cfg (str "logAllowed") with
                           | some (.bool true) => true
                           | _ => false),
            failSafe := failSafe,
            toolGroups := toolGroups,
            rateLimit := rateLimit,
            systemCommands := systemCommands,
            warnings := warnings }

/-- Decidable equality for `Except` results, so loader outcomes can be
checked by evaluation. -/
instance exceptDecEq {ε α : Type} [DecidableEq ε] [DecidableEq α] :
    DecidableEq (Except ε α) := fun a b =>
  match a, b with
  | .error e, .error f =>
      if h : e = f then .isTrue (by rw [h])
      else .isFalse (fun hh => h (by injection hh))
  | .error _, .ok _ => .isFalse (fun hh => Except.noConfusion hh)
  | .ok _, .error _ => .isFalse (fun hh => Except.noConfusion hh)
  | .ok x, .ok y =>
      if h : x = y then .isTrue (by rw [h])
      else .isFalse (fun hh => h (by injection hh))

/-! ## Specification-side definitions

These follow the wording of the specification (and of the claims under
check), to be compared with the definitions embedded from the source. -/

/-- Modelled from the spec, §4.2: scan the segments from index 2 onward (to
the very end of the list) for the first peer-kind segment; the following
segment is the peer id (fail when it is absent or empty); the channel is the
segment at index 2 exactly when the peer-kind index is at least 3. -/
def scanFromSpec (parts : List Str) (i : Nat) : List Str → Option ParsedSessionKey
  | seg :: rest =>
      if seg ∈ PEER_KINDS then
        match rest with
        | [] => none
        | next :: _ =>
            if next = [] then none
            else
              some { peerId := next,
                     channel := if 3 ≤ i then some (parts.getD 2 []) else none,
                     peerKind := seg }
      else
        scanFromSpec parts (i + 1) rest
  | [] => none

/-- Modelled from the spec, §4.2: the full parsing algorithm as worded in
the specification (split on `:`, require at least four segments, scan from
index 2). -/
def parseSessionKeySpec (sessionKey : Str) : Option ParsedSessionKey :=
  let parts := splitOnChar ':' sessionKey
  if parts.length < 4 then none
  else scanFromSpec parts 2 (parts.drop 2)

/-- Claim C3's round-trip clause as stated, instantiated at the
per-channel-peer shape of §4.2: for every `agent:<a>:<channel>:<kind>:<pid>`
session key with a valid (non-empty) peer segment, the returned peer id
equals the final segment. -/
def roundTripClaim : Prop :=
  ∀ (a ch kind pid : Str),
    ':' ∉ a → ':' ∉ ch → ':' ∉ pid →
    kind ∈ PEER_KINDS → pid ≠ [] →
    (parseSessionKey
        (str "agent" ++ ':' :: a ++ ':' :: ch ++ ':' :: kind ++ ':' :: pid)).map
      (fun p => p.peerId) = some pid

/-- Modelled from the claim (spec §4.6 step 2): the command head is the
prefix of the trimmed string up to the first whitespace character. -/
def extractCommandClaim (trimmed : Str) : Option Str :=
  if (str "/").isPrefixOf trimmed then
    some (trimmed.takeWhile (fun c => !c.isWhitespace))
  else
    none

/-- Source `matchBlockedCommand` as the claim words it, with the
whitespace-delimited head. -/
def matchBlockedCommandClaim (content : Str) (config : SystemCommandsConfig) : Option Str :=
  let trimmed := jsToLower (jsTrim content)
  match extractCommandClaim trimmed with
  | none => none
  | some command =>
      if config.guestHelp.isSome && command = str "/help" then
        some (str "/help")
      else
        match config.mode with
        | .allowlist => if command ∈ config.allowed then none else some command
        | .blocklist => if command ∈ config.blocked then some command else none

/-- The amended head extraction: the prefix of the trimmed string up to the
first space character (U+0020), the whole string when there is no space. -/
def extractCommandAmended (trimmed : Str) : Option Str :=
  if (str "/").isPrefixOf trimmed then
    some (trimmed.takeWhile (fun c => c != ' '))
  else
    none

/-- Source `matchBlockedCommand` as amended: space-delimited head. -/
def matchBlockedCommandAmended (content : Str) (config : SystemCommandsConfig) : Option Str :=
  let trimmed := jsToLower (jsTrim content)
  match extractCommandAmended trimmed with
  | none => none
  | some command =>
      if config.guestHelp.isSome && command = str "/help" then
        some (str "/help")
      else
        match config.mode with
        | .allowlist => if command ∈ config.allowed then none else some command
        | .blocklist => if command ∈ config.blocked then some command else none

/-- Claim C6 as stated: `matchBlockedCommand` behaves as the
whitespace-delimited-head formulation on every input. -/
def whitespaceHeadClaim : Prop :=
  ∀ (content : Str) (config : SystemCommandsConfig),
    matchBlockedCommand content config = matchBlockedCommandClaim content config

/-! ## Run model for the rate limiter -/

/-- Fold a sequence of `shouldLog` calls for one peer over the call times,
recording each call's result together with the `windowStart` stored for the
peer right after the call. -/
def runShouldLog (peerId : Str) : RateLimiterState → List Int → List (Bool × Int)
  | _, [] => []
  | rl, t :: ts =>
      let res := shouldLog t peerId rl
      let ws :=
        match recordGet res.2.peers peerId with
        | some p => p.windowStart
        | none => 0
      (res.1, ws) :: runShouldLog peerId res.2 ts

/-- Adjacent-pairs check that call times are nondecreasing. -/
def nondecrB : List Int → Bool
  | [] => true
  | [_] => true
  | a :: b :: rest => decide (a ≤ b) && nondecrB (b :: rest)

/-- Call times are nondecreasing. -/
abbrev nondecr (ts : List Int) : Prop := nondecrB ts = true

/-- The number of `shouldLog` calls that return `true` among the calls whose
times fall in the 60-second window `[a, a + 60000)`, for a limiter freshly
constructed with maximum `N` and driven at the times `ts` for one peer. -/
def slidingTrueCount (N : Nat) (peerId : Str) (ts : List Int) (a : Int) : Nat :=
  ((ts.zip ((runShouldLog peerId (RateLimiter.mk0 N) ts).map (·.1))).filter
    (fun p => decide (a ≤ p.1) && decide (p.1 < a + WINDOW_MS) && p.2)).length

/-- Claim C5 as stated: for nondecreasing single-peer call times, every
60-second window sees at most `N` calls that return `true`. -/
def slidingWindowClaim : Prop :=
  ∀ (N : Nat) (peerId : Str) (ts : List Int) (a : Int),
    nondecr ts → slidingTrueCount N peerId ts a ≤ N

/-- The number of calls that return `true` among those sharing the stored
window start `w`, for a limiter freshly constructed with maximum `N`. -/
def epochTrueCount (N : Nat) (peerId : Str) (ts : List Int) (w : Int) : Nat :=
  ((runShouldLog peerId (RateLimiter.mk0 N) ts).filter
    (fun p => p.1 && decide (p.2 = w))).length

/-! ## Claim-side view of raw configuration documents -/

/-- The `users` field of one raw role entry, as the role parser reads it
(`none` when the entry is not an object or the field does not parse). -/
def rawRoleUsers (entry : Str × Json) : Option StarOrList :=
  match entry.2 with
  | .obj fields => (parseUsers (recordGet fields (str "users")) entry.1).toOption
  | _ => none

/-- Claim C4 as stated: whenever, in declared order, a wildcard-users role
precedes a specific-users role, the loader fails with a diagnostic of the
ordering shape (naming a wildcard role and a later specific role). -/
def orderingDiagnosticClaim : Prop :=
  ∀ (doc : Json) (fields rolesFields : List (Str × Json)),
    doc = Json.obj fields →
    recordGet fields (str "roles") = some (.obj rolesFields) →
    ∀ (l1 : List (Str × Json)) (pw : Str × Json) (l2 : List (Str × Json))
      (ps : Str × Json) (l3 : List (Str × Json)),
      rolesFields = l1 ++ pw :: l2 ++ ps :: l3 →
      rawRoleUsers pw = some .star →
      (∃ us, rawRoleUsers ps = some (.list us)) →
      ∃ w r, rbacParse doc = .error (orderingError w r)

/-- Source `rolesFields` contains an entry named `w` with wildcard users that
precedes an entry named `r` with specific (list) users. -/
def namesOrderedPair (rolesFields : List (Str × Json)) (w r : Str) : Prop :=
  ∃ m1 e1 m2 e2 m3, rolesFields = m1 ++ e1 :: m2 ++ e2 :: m3 ∧
    e1.1 = w ∧ rawRoleUsers e1 = some .star ∧
    e2.1 = r ∧ (∃ us, rawRoleUsers e2 = some (.list us))

/-! ## Concrete fixtures -/

/-- A policy with a single role whose tool list is the wildcard pattern
`exec_*`. -/
def execConfig : RBACConfig :=
  { roles := [(str "r", { users := .star, tools := .list [str "exec_*"], channels := .star })],
    defaultRole := str "r", logBlocked := true, logAllowed := false, failSafe := .deny,
    toolGroups := [], rateLimit := none, systemCommands := none, warnings := [] }

/-- A policy whose single role lists `@news_*` and whose `toolGroups` has a
matching `news_*` group; used to show the entry is treated as a wildcard,
not a group reference. -/
def newsConfig : RBACConfig :=
  { roles := [(str "r", { users := .star, tools := .list [str "@news_*"], channels := .star })],
    defaultRole := str "r", logBlocked := true, logAllowed := false, failSafe := .deny,
    toolGroups := [(str "news_*", [str "get_recent_news"])],
    rateLimit := none, systemCommands := none, warnings := [] }

/-- An allowlist command spec that allows `/help` yet also configures
`guestHelp`. -/
def helpConfig : SystemCommandsConfig :=
  { mode := .allowlist, blocked := [], allowed := [str "/help"],
    guestHelp := some (str "Custom help"), blockResponse := str "Blocked" }

/-- A blocklist command spec blocking `/x`. -/
def tabConfig : SystemCommandsConfig :=
  { mode := .blocklist, blocked := [str "/x"], allowed := [],
    guestHelp := none, blockResponse := str "Blocked" }

/-- A two-role policy for exercising `resolveRole`. -/
def resolveConfig : RBACConfig :=
  { roles := [(str "admin", { users := .list [str "u1"], tools := .star, channels := .star }),
              (str "guest", { users := .star, tools := .list [], channels := .star })],
    defaultRole := str "guest", logBlocked := true, logAllowed := false, failSafe := .deny,
    toolGroups := [], rateLimit := none, systemCommands := none, warnings := [] }

/-- A structurally valid raw role entry with wildcard users. -/
def entryWildcardA : Str × Json :=
  (str "a", .obj [(str "users", .str (str "*")), (str "tools", .str (str "*"))])

/-- A raw role entry with specific users and a malformed `tools` field. -/
def entryBadToolsB : Str × Json :=
  (str "b", .obj [(str "users", .arr [.str (str "x")]), (str "tools", .num 42)])

/-- A structurally valid raw role entry with specific users. -/
def entryListB : Str × Json :=
  (str "b", .obj [(str "users", .arr [.str (str "x")]), (str "tools", .str (str "*"))])

/-- Roles object whose wildcard-users role `a` precedes the specific-users
role `b`, while `b` also has a malformed `tools` field. -/
def rolesFieldsBad : List (Str × Json) := [entryWildcardA, entryBadToolsB]

/-- The corresponding document. -/
def docWildcardBadTools : Json := .obj [(str "roles", .obj rolesFieldsBad)]

/-- Roles object whose wildcard-users role `a` precedes the specific-users
role `b`, with both entries structurally valid. -/
def rolesFieldsOrdered : List (Str × Json) := [entryWildcardA, entryListB]

/-- The corresponding document. -/
def docWildcardFirst : Json := .obj [(str "roles", .obj rolesFieldsOrdered)]

/-- The warnings accumulated by one iteration of the roles loop
(empty-tools and empty-channels warnings). -/
def warnUpd (warn : List Str) (n : Str) (role : RBACRoleConfig) : List Str :=
  let warnings1 :=
    match role.tools with
    | .list [] => warn ++ [emptyToolsWarning n]
    | _ => warn
  match role.channels with
  | .list [] => warnings1 ++ [emptyChannelsWarning n]
  | _ => warnings1

/-! ## Helper lemmas -/

/-- A bound `Except` computation succeeds exactly when both stages do. -/
theorem except_bind_ok {ε α β : Type} {x : Except ε α} {f : α → Except ε β} {b : β} :
    (x >>= f = Except.ok b) ↔ ∃ a, x = Except.ok a ∧ f a = Except.ok b := by
  cases x with
  | error e =>
      exact ⟨fun h => Except.noConfusion h, fun ⟨a, ha, _⟩ => Except.noConfusion ha⟩
  | ok a =>
      exact ⟨fun h => ⟨a, rfl, h⟩, fun ⟨a2, ha, hf⟩ => by cases ha; exact hf⟩

/-! ## Claims about the pending-block slot -/

/-- C8: `consumePendingBlock` always leaves the slot empty; it returns
`none` exactly when the slot was empty or the stored entry is older than
10 seconds, and otherwise returns the stored command. -/
theorem consumePendingBlock_spec :
    ∀ (slot : Option PendingBlock) (now : Int),
      (consumePendingBlock now slot).2 = none ∧
      ((consumePendingBlock now slot).1 = none ↔
        slot = none ∨ ∃ b, slot = some b ∧ now - b.timestamp > STALE_MS) ∧
      (∀ b, slot = some b → now - b.timestamp ≤ STALE_MS →
        (consumePendingBlock now slot).1 = some b.command) := by
  intro slot now
  cases slot with
  | none => simp [consumePendingBlock]
  | some b =>
      by_cases h : now - b.timestamp > STALE_MS
      · simp [consumePendingBlock, h]
        omega
      · simp [consumePendingBlock, h]

/-- Witness for C8: a fresh entry is returned and the slot is cleared. -/
theorem consumePendingBlock_spec_witness :
    (consumePendingBlock 200 (some { command := str "/status", timestamp := 100 })).1
      = some (str "/status") :=
  (consumePendingBlock_spec (some { command := str "/status", timestamp := 100 }) 200).2.2
    { command := str "/status", timestamp := 100 } rfl (by decide)

/-- C9: `setPendingBlock` unconditionally overwrites the slot (last write
wins), so a consume within the staleness bound returns the newer command. -/
theorem setPendingBlock_overwrites :
    ∀ (slot : Option PendingBlock) (command : Str) (now : Int),
      setPendingBlock command now slot = some { command := command, timestamp := now } ∧
      (∀ now2 : Int, now2 - now ≤ STALE_MS →
        (consumePendingBlock now2 (setPendingBlock command now slot)).1 = some command) := by
  intro slot command now
  refine ⟨rfl, ?_⟩
  intro now2 h
  have h2 : ¬ (now2 - now > STALE_MS) := by omega
  simp [setPendingBlock, consumePendingBlock, h2]

/-- Witness for C9: overwriting an armed slot makes the next consume return
the newer command. -/
theorem setPendingBlock_overwrites_witness :
    (consumePendingBlock 8 (setPendingBlock (str "/new") 5
      (some { command := str "/old", timestamp := 0 }))).1 = some (str "/new") :=
  (setPendingBlock_overwrites (some { command := str "/old", timestamp := 0 })
    (str "/new") 5).2 8 (by decide)

/-! ## Claim about `/help` interception -/

/-- C7: with `guestHelp` configured, any message whose extracted head is
`/help` is matched unconditionally (any mode, even when `/help` is
allowlisted), `getBlockResponse` on `/help` returns `guestHelp`, and on any
other command returns `blockResponse`. -/
theorem guestHelp_intercepts :
    (∀ (config : SystemCommandsConfig) (content h : Str),
      config.guestHelp = some h →
      extractCommand (jsToLower (jsTrim content)) = some (str "/help") →
      matchBlockedCommand content config = some (str "/help")) ∧
    (∀ (config : SystemCommandsConfig) (h : Str), config.guestHelp = some h →
      getBlockResponse (str "/help") config = h) ∧
    (∀ (config : SystemCommandsConfig) (command : Str), command ≠ str "/help" →
      getBlockResponse command config = config.blockResponse) := by
  refine ⟨?_, ?_, ?_⟩
  · intro config content h hg hx
    simp [matchBlockedCommand, hx, hg]
  · intro config h hg
    simp [getBlockResponse, hg]
  · intro config command hne
    cases hg : config.guestHelp with
    | none => simp [getBlockResponse, hg]
    | some g => simp [getBlockResponse, hg, hne]

/-- Witness for C7: `/help` is intercepted in allowlist mode even though it
is allowlisted, and the responses pick `guestHelp` and `blockResponse`
respectively. -/
theorem guestHelp_intercepts_witness :
    matchBlockedCommand (str "/help") helpConfig = some (str "/help") ∧
    getBlockResponse (str "/help") helpConfig = str "Custom help" ∧
    getBlockResponse (str "/status") helpConfig = str "Blocked" :=
  ⟨guestHelp_intercepts.1 helpConfig (str "/help") (str "Custom help") rfl (by decide),
   guestHelp_intercepts.2.1 helpConfig (str "Custom help") rfl,
   guestHelp_intercepts.2.2 helpConfig (str "/status") (by decide)⟩

/-! ## Claim about the session-key parser -/

/-- The code's bounded scan (stopping one short of the end) agrees with the
spec's scan to the very end: a peer kind in final position has no following
segment either way. -/
theorem scanFrom_eq_spec (parts : List Str) : ∀ (i : Nat) (l : List Str),
    scanFrom parts i l = scanFromSpec parts i l := by
  intro i l
  induction l generalizing i with
  | nil => rfl
  | cons seg rest ih =>
      cases rest with
      | nil =>
          by_cases h : seg ∈ PEER_KINDS
          · simp [scanFrom, scanFromSpec, h]
          · simp [scanFrom, scanFromSpec, h]
      | cons next rest2 =>
          by_cases h : seg ∈ PEER_KINDS
          · simp [scanFrom, scanFromSpec, h]
          · simp only [scanFrom, scanFromSpec, h, if_false]
            exact ih (i + 1)

/-- Unfolding one character of the splitter. -/
theorem splitOnChar_cons (sep c : Char) (cs : Str) :
    splitOnChar sep (c :: cs) =
      match splitOnChar sep cs with
      | [] => [[c]]
      | a :: rest => if c = sep then [] :: (a :: rest) else (c :: a) :: rest := rfl

/-- The splitter always yields at least one segment. -/
theorem splitOnChar_ne_nil (sep : Char) : ∀ s : Str, splitOnChar sep s ≠ []
  | [] => by simp [splitOnChar]
  | c :: cs => by
      rw [splitOnChar_cons]
      cases hsp : splitOnChar sep cs with
      | nil => exact absurd hsp (splitOnChar_ne_nil sep cs)
      | cons a rest =>
          by_cases hc : c = sep
          · simp [hc]
          · simp [hc]

/-- Splitting a separator-free string yields that string alone. -/
theorem splitOnChar_no_sep (sep : Char) : ∀ x : Str, sep ∉ x → splitOnChar sep x = [x]
  | [], _ => rfl
  | c :: cs, h => by
      have hc : ¬ (c = sep) := fun hh => h (hh ▸ List.mem_cons_self c cs)
      have hcs : sep ∉ cs := fun hh => h (List.mem_cons_of_mem c hh)
      rw [splitOnChar_cons, splitOnChar_no_sep sep cs hcs]
      simp [hc]

/-- Splitting peels one separator-free segment at a time. -/
theorem splitOnChar_sep_append (sep : Char) :
    ∀ (x rest : Str), sep ∉ x →
      splitOnChar sep (x ++ sep :: rest) = x :: splitOnChar sep rest
  | [], rest, _ => by
      rw [List.nil_append, splitOnChar_cons]
      cases hsp : splitOnChar sep rest with
      | nil => exact absurd hsp (splitOnChar_ne_nil sep rest)
      | cons a r => simp
  | c :: cs, rest, h => by
      have hc : ¬ (c = sep) := fun hh => h (hh ▸ List.mem_cons_self c cs)
      have hcs : sep ∉ cs := fun hh => h (List.mem_cons_of_mem c hh)
      rw [List.cons_append, splitOnChar_cons, splitOnChar_sep_append sep cs rest hcs]
      simp [hc]

/-- C3 counterexample: the round-trip clause fails as universally stated.
The key `agent:main:direct:direct:408001372` fits the per-channel-peer
shape `agent:<a>:<channel>:<kind>:<pid>` with a valid peer segment, but the
channel segment named `direct` is taken as the peer kind, so the parser
returns peer id `direct`, not the final segment. -/
theorem roundTripClaim_false : ¬ roundTripClaim := by
  intro h
  have hx := h (str "main") (str "direct") (str "direct") (str "408001372")
    (by decide) (by decide) (by decide) (by decide) (by decide)
  rw [show (parseSessionKey (str "agent" ++ ':' :: str "main" ++ ':' :: str "direct" ++
      ':' :: str "direct" ++ ':' :: str "408001372")).map (fun p => p.peerId) =
      some (str "direct") from by decide] at hx
  exact absurd hx (by decide)

/-- C3 (amended): `parseSessionKey` implements exactly the claimed
algorithm (at least four segments; scan from index 2 for the first peer
kind; peer id is the following, non-empty segment; channel is segment 2
exactly when the kind index is at least 3; `none` when no kind is found);
and for every session key of a §4.2 shape with a valid (non-empty) peer
segment in which no segment from index 2 up to the peer-kind segment is
itself one of `direct`/`group`/`channel`, the returned peer id equals the
final segment (the main shape, with no peer segment, parses to `none`). -/
theorem parseSessionKey_algorithm_roundtrip :
    (∀ s : Str, parseSessionKey s = parseSessionKeySpec s) ∧
    (∀ a kind pid : Str, ':' ∉ a → ':' ∉ pid →
      kind ∈ PEER_KINDS → pid ≠ [] →
      parseSessionKey (str "agent" ++ ':' :: a ++ ':' :: kind ++ ':' :: pid) =
        some { peerId := pid, channel := none, peerKind := kind }) ∧
    (∀ a ch kind pid : Str, ':' ∉ a → ':' ∉ ch → ':' ∉ pid →
      ch ∉ PEER_KINDS → kind ∈ PEER_KINDS → pid ≠ [] →
      parseSessionKey (str "agent" ++ ':' :: a ++ ':' :: ch ++ ':' :: kind ++ ':' :: pid) =
        some { peerId := pid, channel := some ch, peerKind := kind }) ∧
    (∀ a ch acct kind pid : Str, ':' ∉ a → ':' ∉ ch → ':' ∉ acct → ':' ∉ pid →
      ch ∉ PEER_KINDS → acct ∉ PEER_KINDS → kind ∈ PEER_KINDS → pid ≠ [] →
      parseSessionKey
          (str "agent" ++ ':' :: a ++ ':' :: ch ++ ':' :: acct ++ ':' :: kind ++
            ':' :: pid) =
        some { peerId := pid, channel := some ch, peerKind := kind }) ∧
    (∀ a : Str, ':' ∉ a →
      parseSessionKey (str "agent" ++ ':' :: a ++ ':' :: str "main") = none) := by
  have hagent : (':' : Char) ∉ str "agent" := by decide
  have hkindc : ∀ kind : Str, kind ∈ PEER_KINDS → (':' : Char) ∉ kind := by
    intro kind hk
    simp only [PEER_KINDS, List.mem_cons, List.not_mem_nil, or_false] at hk
    rcases hk with rfl | rfl | rfl <;> decide
  refine ⟨?_, ?_, ?_, ?_, ?_⟩
  · intro s
    unfold parseSessionKey parseSessionKeySpec
    by_cases h : (splitOnChar ':' s).length < 4 <;>
      simp [h, scanFrom_eq_spec]
  · intro a kind pid ha hpidc hkk hpne
    have hparts : splitOnChar ':'
        (str "agent" ++ ':' :: (a ++ ':' :: (kind ++ ':' :: pid)))
        = [str "agent", a, kind, pid] := by
      rw [splitOnChar_sep_append ':' (str "agent") _ hagent,
        splitOnChar_sep_append ':' a _ ha,
        splitOnChar_sep_append ':' kind _ (hkindc kind hkk),
        splitOnChar_no_sep ':' pid hpidc]
    simp [parseSessionKey, hparts, scanFrom, hkk, hpne]
  · intro a ch kind pid ha hch hpidc hchk hkk hpne
    have hparts : splitOnChar ':'
        (str "agent" ++ ':' :: (a ++ ':' :: (ch ++ ':' :: (kind ++ ':' :: pid))))
        = [str "agent", a, ch, kind, pid] := by
      rw [splitOnChar_sep_append ':' (str "agent") _ hagent,
        splitOnChar_sep_append ':' a _ ha,
        splitOnChar_sep_append ':' ch _ hch,
        splitOnChar_sep_append ':' kind _ (hkindc kind hkk),
        splitOnChar_no_sep ':' pid hpidc]
    simp [parseSessionKey, hparts, scanFrom, hchk, hkk, hpne]
  · intro a ch acct kind pid ha hch hacct hpidc hchk hacctk hkk hpne
    have hparts : splitOnChar ':'
        (str "agent" ++ ':' :: (a ++ ':' :: (ch ++ ':' :: (acct ++ ':' :: (kind ++
          ':' :: pid)))))
        = [str "agent", a, ch, acct, kind, pid] := by
      rw [splitOnChar_sep_append ':' (str "agent") _ hagent,
        splitOnChar_sep_append ':' a _ ha,
        splitOnChar_sep_append ':' ch _ hch,
        splitOnChar_sep_append ':' acct _ hacct,
        splitOnChar_sep_append ':' kind _ (hkindc kind hkk),
        splitOnChar_no_sep ':' pid hpidc]
    simp [parseSessionKey, hparts, scanFrom, hchk, hacctk, hkk, hpne]
  · intro a ha
    have hparts : splitOnChar ':' (str "agent" ++ ':' :: (a ++ ':' :: str "main"))
        = [str "agent", a, str "main"] := by
      rw [splitOnChar_sep_append ':' (str "agent") _ hagent,
        splitOnChar_sep_append ':' a _ ha,
        splitOnChar_no_sep ':' (str "main") (by decide)]
    simp [parseSessionKey, hparts]

/-- Witness for the amended C3: a concrete per-channel-peer key round-trips
to the final segment with the channel at index 2. -/
theorem parseSessionKey_algorithm_roundtrip_witness :
    parseSessionKey (str "agent" ++ ':' :: str "main" ++ ':' :: str "telegram" ++
        ':' :: str "direct" ++ ':' :: str "408001372") =
      some { peerId := str "408001372", channel := some (str "telegram"),
             peerKind := str "direct" } :=
  parseSessionKey_algorithm_roundtrip.2.2.1 (str "main") (str "telegram") (str "direct")
    (str "408001372") (by decide) (by decide) (by decide) (by decide) (by decide) (by decide)

/-! ## Claims about the command head -/

/-- Source `slice(0, indexOf(c))` (whole list when absent) is `takeWhile (≠ c)`. -/
theorem take_indexOf_eq_takeWhile {α : Type} [DecidableEq α] (a : α) (l : List α) :
    (if l.indexOf a = l.length then l else l.take (l.indexOf a)) =
      l.takeWhile (fun c => c != a) := by
  induction l with
  | nil => rfl
  | cons x xs ih =>
      by_cases h : x = a
      · subst h
        simp [List.indexOf_cons, List.takeWhile_cons]
      · have hb : (x == a) = false := by simp [h]
        rw [List.indexOf_cons]
        rw [List.takeWhile_cons]
        simp only [hb, cond_false, bne_iff_ne, ne_eq, h, not_false_eq_true, if_true]
        by_cases h2 : xs.indexOf a = xs.length
        · simp only [h2, Nat.add_right_cancel_iff, List.length_cons, if_pos]
          rw [← ih]
          simp [h2]
        · have : ¬ (xs.indexOf a + 1 = (x :: xs).length) := by
            simp [List.length_cons, h2]
          simp only [this, if_false]
          rw [List.take_succ_cons, ← ih]
          simp [h2]

/-- The code's space-delimited head extraction equals the amended claim's
`takeWhile (≠ ' ')` formulation. -/
theorem extractCommand_eq_amended (trimmed : Str) :
    extractCommand trimmed = extractCommandAmended trimmed := by
  unfold extractCommand extractCommandAmended
  by_cases h : (str "/").isPrefixOf trimmed
  · simp only [h, if_true]
    exact congrArg some (take_indexOf_eq_takeWhile ' ' trimmed)
  · simp [h]

/-- C6 is false as stated: on `"/x\ty"` (tab after the command) the code
keeps the tab in the head and does not block, while the claimed
whitespace-delimited head `/x` would be blocked. -/
theorem whitespaceHeadClaim_false : ¬ whitespaceHeadClaim := by
  intro h
  have hx := h (str "/x\ty") tabConfig
  rw [show matchBlockedCommand (str "/x\ty") tabConfig = none from by decide] at hx
  rw [show matchBlockedCommandClaim (str "/x\ty") tabConfig = some (str "/x") from by decide] at hx
  exact Option.noConfusion hx

/-- C6 (amended): `matchBlockedCommand` trims and lowercases the content,
returns `none` when the result does not start with `/`, and the head it
tests is the prefix up to the first space character (the whole trimmed
string when it contains no space). -/
theorem matchBlockedCommand_head :
    ∀ (content : Str) (config : SystemCommandsConfig),
      ((str "/").isPrefixOf (jsToLower (jsTrim content)) = false →
        matchBlockedCommand content config = none) ∧
      matchBlockedCommand content config = matchBlockedCommandAmended content config := by
  intro content config
  constructor
  · intro h
    simp [matchBlockedCommand, extractCommand, h]
  · simp only [matchBlockedCommand, matchBlockedCommandAmended, extractCommand_eq_amended]

/-- Witness for the amended C6: a space-delimited command with arguments is
still matched, and both formulations agree on it. -/
theorem matchBlockedCommand_head_witness :
    matchBlockedCommand (str "nohelp") tabConfig = none ∧
    matchBlockedCommand (str "  /X arg") tabConfig =
      matchBlockedCommandAmended (str "  /X arg") tabConfig :=
  ⟨(matchBlockedCommand_head (str "nohelp") tabConfig).1 (by decide),
   (matchBlockedCommand_head (str "  /X arg") tabConfig).2⟩

/-! ## Claims about the tool guard -/

/-- C1: with an existing role whose `tools` is an explicit list and a tool
name not matched exactly, access is allowed iff some wildcard pattern,
stripped of its trailing `*`, is a strict prefix of the tool name; in
particular `exec` is denied under `exec_*`. -/
theorem checkToolAccess_wildcard :
    (∀ (config : RBACConfig) (roleName toolName : Str) (role : RBACRoleConfig)
       (toolList : List Str),
      recordGet config.roles roleName = some role →
      role.tools = .list toolList →
      toolName ∉ (expandTools toolList config).1 →
      ((checkToolAccess toolName roleName config).allowed = true ↔
        ∃ pattern ∈ (expandTools toolList config).2,
          pattern.dropLast <+: toolName ∧ pattern.dropLast.length < toolName.length)) ∧
    (checkToolAccess (str "exec") (str "r") execConfig).allowed = false := by
  refine ⟨?_, by decide⟩
  intro config roleName toolName role toolList hrole htools hnotmem
  have hallowed : (checkToolAccess toolName roleName config).allowed =
      (expandTools toolList config).2.any (wildcardMatches toolName) := by
    simp only [checkToolAccess, hrole, htools, hnotmem, if_false]
    by_cases h2 : (expandTools toolList config).2.any (wildcardMatches toolName)
    · simp [h2]
    · simp [h2]
  rw [hallowed, List.any_eq_true]
  simp only [wildcardMatches, Bool.and_eq_true, decide_eq_true_eq,
    List.isPrefixOf_iff_prefix]

/-- Witness for C1: `exec_shell` is allowed under `exec_*`. -/
theorem checkToolAccess_wildcard_witness :
    (checkToolAccess (str "exec_shell") (str "r") execConfig).allowed = true :=
  (checkToolAccess_wildcard.1 execConfig (str "r") (str "exec_shell")
      { users := .star, tools := .list [str "exec_*"], channels := .star } [str "exec_*"]
      (by decide) rfl (by decide)).mpr
    ⟨str "exec_*", by decide, by decide, by decide⟩

/-- C10: a `_*`-suffixed entry is always classified as a wildcard (the
suffix check precedes the `@` group check), so `@news_*` is never expanded
through `toolGroups` and grants access exactly to strictly longer tool
names beginning with `@news_`. -/
theorem wildcard_beats_group :
    (∀ (config : RBACConfig) (entry : Str), (str "_*").isSuffixOf entry = true →
      expandTools [entry] config = ([], [entry])) ∧
    (checkToolAccess (str "get_recent_news") (str "r") newsConfig).allowed = false ∧
    (∀ toolName : Str, (checkToolAccess toolName (str "r") newsConfig).allowed = true ↔
      str "@news_" <+: toolName ∧ (str "@news_").length < toolName.length) := by
  refine ⟨?_, by decide, ?_⟩
  · intro config entry h
    have h2 : str "_*" <:+ entry := List.isSuffixOf_iff_suffix.mp h
    simp [expandTools, h2]
  · intro toolName
    have hrole : recordGet newsConfig.roles (str "r") =
        some { users := .star, tools := .list [str "@news_*"], channels := .star } := by decide
    have hexp : expandTools [str "@news_*"] newsConfig = ([], [str "@news_*"]) := by decide
    have hallowed : (checkToolAccess toolName (str "r") newsConfig).allowed =
        wildcardMatches toolName (str "@news_*") := by
      unfold checkToolAccess
      rw [hrole]
      simp only [hexp, List.not_mem_nil, if_false, List.any_cons, List.any_nil,
        Bool.or_false]
      by_cases h2 : wildcardMatches toolName (str "@news_*")
      · simp [h2]
      · simp [h2]
    rw [hallowed]
    have hdrop : (str "@news_*").dropLast = str "@news_" := by decide
    simp only [wildcardMatches, hdrop, Bool.and_eq_true, decide_eq_true_eq,
      List.isPrefixOf_iff_prefix]

/-- Witness for C10: `@news_*` stays a wildcard even with a matching group
defined, and grants `@news_flash` (which literally begins with `@`). -/
theorem wildcard_beats_group_witness :
    expandTools [str "@news_*"] newsConfig = ([], [str "@news_*"]) ∧
    (checkToolAccess (str "@news_flash") (str "r") newsConfig).allowed = true :=
  ⟨wildcard_beats_group.1 newsConfig (str "@news_*") (by decide),
   (wildcard_beats_group.2.2 (str "@news_flash")).mpr ⟨by decide, by decide⟩⟩

/-! ## Claim about the role resolver -/

/-- The resolver loop is the first-match search: the first role whose users
and channels both match, else the default. -/
theorem resolveRole_go_eq_find (peerId : Str) (channel : Option Str) (config : RBACConfig) :
    ∀ roles : List (Str × RBACRoleConfig),
      resolveRole.go peerId channel config roles =
        ((roles.find? (fun p => roleMatches peerId channel p.2)).map (·.1)).getD
          config.defaultRole := by
  intro roles
  induction roles with
  | nil => rfl
  | cons e rest ih =>
      obtain ⟨n, r⟩ := e
      by_cases h : roleMatches peerId channel r
      · have hpos : (fun p : Str × RBACRoleConfig => roleMatches peerId channel p.2) (n, r)
            = true := by simpa using h
        simp [resolveRole.go, h, List.find?_cons_of_pos _ hpos]
      · have hstep : resolveRole.go peerId channel config ((n, r) :: rest)
            = resolveRole.go peerId channel config rest := by
          simp [resolveRole.go, h]
        rw [hstep, ih,
          @List.find?_cons_of_neg _
            (fun p : Str × RBACRoleConfig => roleMatches peerId channel p.2) (n, r) rest h]

/-- C2: a successfully loaded policy has `defaultRole` among its role keys,
and for such policies `resolveRole` always returns a key of the roles map:
the first matching role in declared order, else `defaultRole`. -/
theorem resolveRole_returns_known_role :
    (∀ (doc : Json) (cfg : RBACConfig), rbacParse doc = .ok cfg →
      (recordGet cfg.roles cfg.defaultRole).isSome = true) ∧
    (∀ (config : RBACConfig) (peerId : Str) (channel : Option Str),
      (recordGet config.roles config.defaultRole).isSome = true →
      (recordGet config.roles (resolveRole peerId channel config)).isSome = true ∧
      resolveRole peerId channel config =
        ((config.roles.find? (fun p => roleMatches peerId channel p.2)).map (·.1)).getD
          config.defaultRole) := by
  constructor
  · intro doc cfg h
    unfold rbacParse at h
    rw [except_bind_ok] at h
    obtain ⟨cfgFields, hcf, h⟩ := h
    rw [except_bind_ok] at h
    obtain ⟨rolesFields, hrf, h⟩ := h
    rw [except_bind_ok] at h
    obtain ⟨rolesWarnings, hloop, h⟩ := h
    simp only at h
    split at h
    · exact absurd h (fun hh => Except.noConfusion hh)
    · split at h
      · exact absurd h (fun hh => Except.noConfusion hh)
      · rename_i hlen hdef
        rw [except_bind_ok] at h
        obtain ⟨toolGroups, htg, h⟩ := h
        rw [except_bind_ok] at h
        obtain ⟨failSafe, hfs, h⟩ := h
        rw [except_bind_ok] at h
        obtain ⟨rateLimit, hrl, h⟩ := h
        rw [except_bind_ok] at h
        obtain ⟨systemCommands, hsc, h⟩ := h
        rw [except_bind_ok] at h
        obtain ⟨u, hv, h⟩ := h
        have hd2 : ¬ (recordGet rolesWarnings.1
            (match recordGet cfgFields (str "defaultRole") with
             | some (Json.str s) => s
             | _ => str "guest")) = none := by
          simpa [Option.isNone_iff_eq_none] using hdef
        cases h
        simpa [Option.isSome_iff_ne_none] using hd2
  · intro config peerId channel hdef
    have hr : resolveRole peerId channel config =
        ((config.roles.find? (fun p => roleMatches peerId channel p.2)).map (·.1)).getD
          config.defaultRole := resolveRole_go_eq_find peerId channel config config.roles
    refine ⟨?_, hr⟩
    rw [hr]
    cases hf : config.roles.find? (fun p => roleMatches peerId channel p.2) with
    | none => simpa using hdef
    | some e =>
        have hmem : e ∈ config.roles := List.mem_of_find?_eq_some hf
        show (recordGet config.roles e.1).isSome = true
        rw [recordGet]
        cases hx : config.roles.find? (fun p => p.1 = e.1) with
        | none =>
            have : (config.roles.find? (fun p : Str × RBACRoleConfig => p.1 = e.1)).isSome
                = true := List.find?_isSome.mpr ⟨e, hmem, by simp⟩
            rw [hx] at this
            simp at this
        | some q => simp

/-- Witness for C2: an unknown peer resolves to a key of the roles map. -/
theorem resolveRole_returns_known_role_witness :
    (recordGet resolveConfig.roles (resolveRole (str "u2") none resolveConfig)).isSome = true :=
  (resolveRole_returns_known_role.2 resolveConfig (str "u2") none (by decide)).1

/-! ## Claims about the rate limiter -/

/-- Lookup after in-place replacement of an existing key. -/
theorem recordGet_map_set {α : Type} (k : Str) (v : α) :
    ∀ m : List (Str × α), (m.find? (fun p => p.1 = k)).isSome = true →
      recordGet (m.map (fun p => if p.1 = k then (p.1, v) else p)) k = some v := by
  intro m
  induction m with
  | nil => intro h; simp at h
  | cons e rest ih =>
      intro h
      obtain ⟨a, b⟩ := e
      by_cases ha : a = k
      · subst ha
        simp [recordGet, List.find?_cons_of_pos]
      · have hskip : ¬ (fun p : Str × α => decide (p.1 = k)) (a, b) = true := by simpa using ha
        have h2 : (rest.find? (fun p => p.1 = k)).isSome = true := by
          rwa [@List.find?_cons_of_neg _ (fun p : Str × α => decide (p.1 = k)) (a, b) rest hskip]
            at h
        have := ih h2
        rw [recordGet] at this ⊢
        simp only [List.map_cons]
        rw [if_neg (show ¬ ((a, b).1 = k) from by simpa using ha)]
        rwa [@List.find?_cons_of_neg _ (fun p : Str × α => decide (p.1 = k)) (a, b)
          (rest.map (fun p => if p.1 = k then (p.1, v) else p)) hskip]

/-- Lookup after appending a fresh key. -/
theorem recordGet_append_new {α : Type} (m : List (Str × α)) (k : Str) (v : α)
    (h : m.find? (fun p => p.1 = k) = none) :
    recordGet (m ++ [(k, v)]) k = some v := by
  rw [recordGet, List.find?_append, h]
  simp [List.find?]

/-- Source `Map.set` followed by `Map.get` on the same key returns the new value. -/
theorem recordGet_set {α : Type} (m : List (Str × α)) (k : Str) (v : α) :
    recordGet (recordSet m k v) k = some v := by
  unfold recordSet
  by_cases h : (m.find? (fun p => p.1 = k)).isSome = true
  · rw [if_pos h]
    exact recordGet_map_set k v m h
  · rw [if_neg h]
    exact recordGet_append_new m k v (by
      cases hx : m.find? (fun p => p.1 = k) with
      | none => rfl
      | some q => rw [hx] at h; simp at h)

/-- Source `shouldLog` when the peer is absent: start a fresh window at `now`. -/
theorem shouldLog_reset_none (t : Int) (peerId : Str) (rl : RateLimiterState)
    (hget : recordGet rl.peers peerId = none) :
    shouldLog t peerId rl =
      if 0 < rl.maxPerMinute then
        (true, { rl with peers := recordSet rl.peers peerId ⟨t, 1, 0⟩ })
      else
        (false, { rl with peers := recordSet rl.peers peerId ⟨t, 0, 1⟩ }) := by
  simp only [shouldLog, hget]

/-- Source `shouldLog` when the stored window has expired: reset at `now`. -/
theorem shouldLog_reset_expired (t : Int) (peerId : Str) (rl : RateLimiterState)
    (p : PeerWindow) (hget : recordGet rl.peers peerId = some p)
    (hexp : WINDOW_MS ≤ t - p.windowStart) :
    shouldLog t peerId rl =
      if 0 < rl.maxPerMinute then
        (true, { rl with peers := recordSet rl.peers peerId ⟨t, 1, 0⟩ })
      else
        (false, { rl with peers := recordSet rl.peers peerId ⟨t, 0, 1⟩ }) := by
  simp only [shouldLog, hget, if_pos hexp]

/-- Source `shouldLog` inside a live window: count against the stored entry. -/
theorem shouldLog_live (t : Int) (peerId : Str) (rl : RateLimiterState)
    (p : PeerWindow) (hget : recordGet rl.peers peerId = some p)
    (hexp : ¬ WINDOW_MS ≤ t - p.windowStart) :
    shouldLog t peerId rl =
      if p.logged < rl.maxPerMinute then
        (true, { rl with peers := recordSet rl.peers peerId { p with logged := p.logged + 1 } })
      else
        (false, { rl with
          peers := recordSet rl.peers peerId { p with suppressed := p.suppressed + 1 } }) := by
  simp only [shouldLog, hget, if_neg hexp]

/-- Unfolding one call of the run model. -/
theorem runShouldLog_cons (peerId : Str) (rl : RateLimiterState) (t : Int) (ts : List Int) :
    runShouldLog peerId rl (t :: ts) =
      ((shouldLog t peerId rl).1,
        match recordGet (shouldLog t peerId rl).2.peers peerId with
        | some p => p.windowStart
        | none => 0) :: runShouldLog peerId (shouldLog t peerId rl).2 ts := rfl

/-- Once the stored window start for a peer is beyond `w`, no later call is
ever recorded against window `w` again: window starts never decrease. -/
theorem runCount_zero_of_future (peerId : Str) (w : Int) :
    ∀ (ts : List Int) (rl : RateLimiterState) (p : PeerWindow),
      recordGet rl.peers peerId = some p → w < p.windowStart →
      ((runShouldLog peerId rl ts).filter (fun q => q.1 && decide (q.2 = w))).length = 0 := by
  intro ts
  induction ts with
  | nil => intro rl p _ _; rfl
  | cons t rest ih =>
      intro rl p hget hlt
      rw [runShouldLog_cons]
      by_cases hexp : WINDOW_MS ≤ t - p.windowStart
      · have hwt : ¬ (t = w) := by
          have hW : WINDOW_MS = 60000 := rfl
          omega
        rw [shouldLog_reset_expired t peerId rl p hget hexp]
        by_cases hN : 0 < rl.maxPerMinute
        · rw [if_pos hN]
          simp only [recordGet_set, List.filter_cons, Bool.true_and, decide_eq_false hwt,
            Bool.false_eq_true, if_false]
          exact ih _ ⟨t, 1, 0⟩ (recordGet_set _ _ _) (by
            have hW : WINDOW_MS = 60000 := rfl
            simp only []
            omega)
        · rw [if_neg hN]
          simp only [recordGet_set, List.filter_cons, Bool.false_and, Bool.false_eq_true,
            if_false]
          exact ih _ ⟨t, 0, 1⟩ (recordGet_set _ _ _) (by
            have hW : WINDOW_MS = 60000 := rfl
            simp only []
            omega)
      · have hws : ¬ (p.windowStart = w) := by omega
        rw [shouldLog_live t peerId rl p hget hexp]
        by_cases hl : p.logged < rl.maxPerMinute
        · rw [if_pos hl]
          simp only [recordGet_set, List.filter_cons, Bool.true_and, decide_eq_false hws,
            Bool.false_eq_true, if_false]
          exact ih _ { p with logged := p.logged + 1 } (recordGet_set _ _ _) hlt
        · rw [if_neg hl]
          simp only [recordGet_set, List.filter_cons, Bool.false_and, Bool.false_eq_true,
            if_false]
          exact ih _ { p with suppressed := p.suppressed + 1 } (recordGet_set _ _ _) hlt

/-- Updating the peers map leaves the limit unchanged. -/
theorem max_set (rl : RateLimiterState) (x : List (Str × PeerWindow)) :
    ({ rl with peers := x } : RateLimiterState).maxPerMinute = rl.maxPerMinute := rfl


/-- Core invariant: the calls recorded against any one window start `w`,
together with the count already logged in that window, never exceed the
limit. -/
theorem epoch_bound_aux (peerId : Str) (w : Int) :
    ∀ (ts : List Int) (rl : RateLimiterState),
      (∀ p, recordGet rl.peers peerId = some p → p.logged ≤ rl.maxPerMinute) →
      ((runShouldLog peerId rl ts).filter (fun q => q.1 && decide (q.2 = w))).length +
        (match recordGet rl.peers peerId with
         | some p => if p.windowStart = w then p.logged else 0
         | none => 0) ≤ rl.maxPerMinute := by
  intro ts
  induction ts with
  | nil =>
      intro rl hinv
      cases hget : recordGet rl.peers peerId with
      | none => simp [runShouldLog]
      | some p =>
          by_cases hpw : p.windowStart = w
          · simpa [runShouldLog, hpw] using hinv p hget
          · simp [runShouldLog, hpw]
  | cons t rest ih =>
      intro rl hinv
      rw [runShouldLog_cons]
      cases hget : recordGet rl.peers peerId with
      | none =>
          rw [shouldLog_reset_none t peerId rl hget]
          by_cases hN : 0 < rl.maxPerMinute
          · rw [if_pos hN]
            have hinv2 : ∀ p, recordGet (recordSet rl.peers peerId (⟨t, 1, 0⟩ : PeerWindow))
                peerId = some p → p.logged ≤ rl.maxPerMinute := by
              intro p hp
              rw [recordGet_set] at hp
              cases hp
              exact hN
            have hih := ih { rl with peers := recordSet rl.peers peerId ⟨t, 1, 0⟩ } hinv2
            simp only [max_set] at hih
            simp only [hget]
            by_cases htw : t = w
            · subst htw
              simp [recordGet_set, List.filter_cons] at hih ⊢
              omega
            · simp [recordGet_set, List.filter_cons, htw] at hih ⊢
              omega
          · rw [if_neg hN]
            have hinv2 : ∀ p, recordGet (recordSet rl.peers peerId (⟨t, 0, 1⟩ : PeerWindow))
                peerId = some p → p.logged ≤ rl.maxPerMinute := by
              intro p hp
              rw [recordGet_set] at hp
              cases hp
              exact Nat.zero_le _
            have hih := ih { rl with peers := recordSet rl.peers peerId ⟨t, 0, 1⟩ } hinv2
            simp only [max_set] at hih
            simp only [hget]
            simp [recordGet_set, List.filter_cons, ite_self] at hih ⊢
            omega
      | some p =>
          have hW : WINDOW_MS = 60000 := rfl
          by_cases hexp : WINDOW_MS ≤ t - p.windowStart
          · rw [shouldLog_reset_expired t peerId rl p hget hexp]
            by_cases hN : 0 < rl.maxPerMinute
            · rw [if_pos hN]
              have hinv2 : ∀ q, recordGet (recordSet rl.peers peerId (⟨t, 1, 0⟩ : PeerWindow))
                  peerId = some q → q.logged ≤ rl.maxPerMinute := by
                intro q hq
                rw [recordGet_set] at hq
                cases hq
                exact hN
              have hih := ih { rl with peers := recordSet rl.peers peerId ⟨t, 1, 0⟩ } hinv2
              simp only [max_set] at hih
              simp only [hget]
              by_cases htw : t = w
              · subst htw
                have hpw : ¬ (p.windowStart = t) := by omega
                simp [recordGet_set, List.filter_cons, hpw] at hih ⊢
                omega
              · by_cases hpw : p.windowStart = w
                · have hwt : w < t := by omega
                  have hzero := runCount_zero_of_future peerId w rest
                    { rl with peers := recordSet rl.peers peerId ⟨t, 1, 0⟩ }
                    ⟨t, 1, 0⟩ (recordGet_set _ _ _) hwt
                  have hlog := hinv p hget
                  simp [recordGet_set, List.filter_cons, htw, hpw] at hih ⊢
                  omega
                · simp [recordGet_set, List.filter_cons, htw, hpw] at hih ⊢
                  omega
            · rw [if_neg hN]
              have hlog := hinv p hget
              have hinv2 : ∀ q, recordGet (recordSet rl.peers peerId (⟨t, 0, 1⟩ : PeerWindow))
                  peerId = some q → q.logged ≤ rl.maxPerMinute := by
                intro q hq
                rw [recordGet_set] at hq
                cases hq
                exact Nat.zero_le _
              have hih := ih { rl with peers := recordSet rl.peers peerId ⟨t, 0, 1⟩ } hinv2
              simp only [max_set] at hih
              simp only [hget]
              by_cases hpw : p.windowStart = w
              · simp [recordGet_set, List.filter_cons, ite_self, hpw] at hih ⊢
                omega
              · simp [recordGet_set, List.filter_cons, ite_self, hpw] at hih ⊢
                omega
          · rw [shouldLog_live t peerId rl p hget hexp]
            by_cases hl : p.logged < rl.maxPerMinute
            · rw [if_pos hl]
              have hinv2 : ∀ q, recordGet (recordSet rl.peers peerId
                  { p with logged := p.logged + 1 }) peerId = some q →
                  q.logged ≤ rl.maxPerMinute := by
                intro q hq
                rw [recordGet_set] at hq
                cases hq
                exact hl
              have hih := ih { rl with
                peers := recordSet rl.peers peerId { p with logged := p.logged + 1 } } hinv2
              simp only [max_set] at hih
              simp only [hget]
              by_cases hpw : p.windowStart = w
              · simp [recordGet_set, List.filter_cons, hpw] at hih ⊢
                linarith [hih]
              · simp [recordGet_set, List.filter_cons, hpw] at hih ⊢
                omega
            · rw [if_neg hl]
              have hinv2 : ∀ q, recordGet (recordSet rl.peers peerId
                  { p with suppressed := p.suppressed + 1 }) peerId = some q →
                  q.logged ≤ rl.maxPerMinute := by
                intro q hq
                rw [recordGet_set] at hq
                cases hq
                exact hinv p hget
              have hih := ih { rl with
                peers := recordSet rl.peers peerId { p with suppressed := p.suppressed + 1 } }
                hinv2
              simp only [max_set] at hih
              simp only [hget]
              by_cases hpw : p.windowStart = w
              · simp [recordGet_set, List.filter_cons, hpw] at hih ⊢
                omega
              · simp [recordGet_set, List.filter_cons, hpw] at hih ⊢
                omega

/-- C5 counterexample: with `max = 2` and single-peer calls at the
nondecreasing times 0, 59999, 60000, 60001 ms, the calls at 59999, 60000
and 60001 all return `true`, so the 60-second window starting at 59999
sees three `true` results — the sliding-window bound fails as stated. -/
theorem slidingWindowClaim_false : ¬ slidingWindowClaim := by
  intro h
  have hx := h 2 (str "p") [0, 59999, 60000, 60001] 59999 (by decide)
  rw [show slidingTrueCount 2 (str "p") [0, 59999, 60000, 60001] 59999 = 3 from by decide] at hx
  omega

/-- C5 (amended): for a limiter constructed with maximum `N` and
nondecreasing single-peer call times, at most `N` calls return `true`
within any single limiter window — the calls sharing one stored
`windowStart` value.  (Each window spans 60 s from its reset; the bound is
per reset window, not per arbitrary 60-second interval.) -/
theorem rateLimiter_epoch_bound :
    ∀ (N : Nat) (peerId : Str) (ts : List Int) (w : Int),
      nondecr ts → epochTrueCount N peerId ts w ≤ N := by
  intro N peerId ts w _
  have h := epoch_bound_aux peerId w ts (RateLimiter.mk0 N) (by
    intro p hp
    simp [RateLimiter.mk0, recordGet] at hp)
  simpa [epochTrueCount, RateLimiter.mk0, recordGet] using h

/-- Witness for the amended C5 on the counterexample trace: each of the two
windows (starting at 0 and at 60000) sees exactly `N = 2` logged calls. -/
theorem rateLimiter_epoch_bound_witness :
    epochTrueCount 2 (str "p") [0, 59999, 60000, 60001] 0 ≤ 2 :=
  rateLimiter_epoch_bound 2 (str "p") [0, 59999, 60000, 60001] 0 (by decide)

/-! ## Claims about the configuration loader ordering rule -/

/-- Source `Except` bind on a success. -/
theorem except_ok_bind {ε α β : Type} (a : α) (f : α → Except ε β) :
    (Except.ok a >>= f : Except ε β) = f a := rfl

/-- Source `Except` bind on a failure. -/
theorem except_error_bind {ε α β : Type} (e : ε) (f : α → Except ε β) :
    (Except.error e >>= f : Except ε β) = Except.error e := rfl

/-- A computation with `isOk` carries a success value. -/
theorem except_isOk_exists {ε α : Type} {x : Except ε α} (h : x.isOk = true) :
    ∃ a, x = .ok a := by
  cases x with
  | ok a => exact ⟨a, rfl⟩
  | error e => exact Bool.noConfusion h

/-- A role entry whose structural parse succeeds has exactly the parsed
`users` field from the claim-side view. -/
theorem rawRoleUsers_of_ok (n : Str) (j : Json) (role : RBACRoleConfig)
    (hpf : parseRoleFields n j = .ok role) :
    rawRoleUsers (n, j) = some role.users := by
  unfold parseRoleFields at hpf
  rw [except_bind_ok] at hpf
  obtain ⟨fields, hao, hpf⟩ := hpf
  rw [except_bind_ok] at hpf
  obtain ⟨users, hu, hpf⟩ := hpf
  rw [except_bind_ok] at hpf
  obtain ⟨tools, ht, hpf⟩ := hpf
  rw [except_bind_ok] at hpf
  obtain ⟨channels, hc, hpf⟩ := hpf
  cases hpf
  cases j <;> simp only [assertObject] at hao
  case obj jf =>
      have hjf : jf = fields := by injection hao
      subst hjf
      simp only [rawRoleUsers, hu]
      rfl
  all_goals exact absurd hao (fun hh => Except.noConfusion hh)

/-- One loop step: a failing role entry fails the loop. -/
theorem loop_cons_err (n : Str) (j : Json) (rest : List (Str × Json)) (fw : Option Str)
    (acc : List (Str × RBACRoleConfig)) (warn : List Str) (e : Str)
    (hpf : parseRoleFields n j = .error e) :
    parseRolesLoop ((n, j) :: rest) fw acc warn = .error e := by
  simp only [parseRolesLoop, hpf, except_error_bind]

/-- One loop step: a wildcard-users entry records (or keeps) the first
wildcard role and continues. -/
theorem loop_cons_star (n : Str) (j : Json) (rest : List (Str × Json)) (fw : Option Str)
    (acc : List (Str × RBACRoleConfig)) (warn : List Str) (role : RBACRoleConfig)
    (hpf : parseRoleFields n j = .ok role) (hu : role.users = .star) :
    parseRolesLoop ((n, j) :: rest) fw acc warn =
      parseRolesLoop rest (some (fw.getD n)) (recordSet acc n role) (warnUpd warn n role) := by
  simp only [parseRolesLoop, hpf, except_ok_bind, hu]
  rfl

/-- One loop step: a specific-users entry after a recorded wildcard raises
the ordering diagnostic. -/
theorem loop_cons_list_pending (n : Str) (j : Json) (rest : List (Str × Json)) (w : Str)
    (acc : List (Str × RBACRoleConfig)) (warn : List Str) (role : RBACRoleConfig)
    (us : List Str) (hpf : parseRoleFields n j = .ok role) (hu : role.users = .list us) :
    parseRolesLoop ((n, j) :: rest) (some w) acc warn = .error (orderingError w n) := by
  simp only [parseRolesLoop, hpf, except_ok_bind, hu]
  rfl

/-- One loop step: a specific-users entry with no wildcard seen yet
continues. -/
theorem loop_cons_list_none (n : Str) (j : Json) (rest : List (Str × Json))
    (acc : List (Str × RBACRoleConfig)) (warn : List Str) (role : RBACRoleConfig)
    (us : List Str) (hpf : parseRoleFields n j = .ok role) (hu : role.users = .list us) :
    parseRolesLoop ((n, j) :: rest) none acc warn =
      parseRolesLoop rest none (recordSet acc n role) (warnUpd warn n role) := by
  simp only [parseRolesLoop, hpf, except_ok_bind, hu]
  rfl

/-- Once a wildcard role has been recorded, any later specific-users entry
fails the loop (as do any malformed entries reached first). -/
theorem loop_pending_fails :
    ∀ (rest : List (Str × Json)) (wN : Str) (acc : List (Str × RBACRoleConfig))
      (warn : List Str),
      (∃ e ∈ rest, ∃ us, rawRoleUsers e = some (.list us)) →
      ∃ m, parseRolesLoop rest (some wN) acc warn = .error m := by
  intro rest
  induction rest with
  | nil =>
      intro wN acc warn hex
      obtain ⟨e, he, _⟩ := hex
      exact absurd he (List.not_mem_nil e)
  | cons hd tl ih =>
      intro wN acc warn hex
      obtain ⟨n, j⟩ := hd
      cases hpf : parseRoleFields n j with
      | error e => exact ⟨e, loop_cons_err n j tl (some wN) acc warn e hpf⟩
      | ok role =>
          cases hu : role.users with
          | star =>
              have hraw := rawRoleUsers_of_ok n j role hpf
              obtain ⟨e, he, us, hus⟩ := hex
              have hetl : e ∈ tl := by
                rcases List.mem_cons.mp he with h1 | h1
                · subst h1
                  rw [hraw, hu] at hus
                  simp at hus
                · exact h1
              obtain ⟨m, hm⟩ := ih wN (recordSet acc n role) (warnUpd warn n role)
                ⟨e, hetl, us, hus⟩
              refine ⟨m, ?_⟩
              rw [loop_cons_star n j tl (some wN) acc warn role hpf hu]
              simpa using hm
          | list us2 =>
              exact ⟨orderingError wN n,
                loop_cons_list_pending n j tl wN acc warn role us2 hpf hu⟩

/-- As `loop_pending_fails`, but with structurally valid entries the failure
is exactly the ordering diagnostic naming the recorded wildcard role and a
later specific-users role. -/
theorem loop_pending_ordering :
    ∀ (rest : List (Str × Json)) (wN : Str) (acc : List (Str × RBACRoleConfig))
      (warn : List Str),
      (∀ e ∈ rest, (parseRoleFields e.1 e.2).isOk = true) →
      (∃ e ∈ rest, ∃ us, rawRoleUsers e = some (.list us)) →
      ∃ e ∈ rest, (∃ us, rawRoleUsers e = some (.list us)) ∧
        parseRolesLoop rest (some wN) acc warn = .error (orderingError wN e.1) := by
  intro rest
  induction rest with
  | nil =>
      intro wN acc warn _ hex
      obtain ⟨e, he, _⟩ := hex
      exact absurd he (List.not_mem_nil e)
  | cons hd tl ih =>
      intro wN acc warn hok hex
      obtain ⟨n, j⟩ := hd
      obtain ⟨role, hpf⟩ := except_isOk_exists (hok (n, j) (by simp))
      cases hu : role.users with
      | star =>
          have hraw := rawRoleUsers_of_ok n j role hpf
          obtain ⟨e, he, us, hus⟩ := hex
          have hetl : e ∈ tl := by
            rcases List.mem_cons.mp he with h1 | h1
            · subst h1
              rw [hraw, hu] at hus
              simp at hus
            · exact h1
          obtain ⟨e2, he2, hus2, herr⟩ := ih wN (recordSet acc n role) (warnUpd warn n role)
            (fun e3 he3 => hok e3 (List.mem_cons_of_mem _ he3)) ⟨e, hetl, us, hus⟩
          refine ⟨e2, List.mem_cons_of_mem _ he2, hus2, ?_⟩
          rw [loop_cons_star n j tl (some wN) acc warn role hpf hu]
          simpa using herr
      | list us2 =>
          refine ⟨(n, j), by simp, ⟨us2, by rw [rawRoleUsers_of_ok n j role hpf, hu]⟩, ?_⟩
          exact loop_cons_list_pending n j tl wN acc warn role us2 hpf hu

/-- Whenever a wildcard-users entry precedes a specific-users entry in the
roles object, the roles loop fails. -/
theorem loop_none_fails :
    ∀ (l1 : List (Str × Json)) (pw : Str × Json) (l2 : List (Str × Json))
      (ps : Str × Json) (l3 : List (Str × Json)) (acc : List (Str × RBACRoleConfig))
      (warn : List Str),
      rawRoleUsers pw = some .star →
      (∃ us, rawRoleUsers ps = some (.list us)) →
      ∃ m, parseRolesLoop (l1 ++ pw :: l2 ++ ps :: l3) none acc warn = .error m := by
  intro l1
  induction l1 with
  | nil =>
      intro pw l2 ps l3 acc warn hpw hps
      obtain ⟨n, j⟩ := pw
      cases hpf : parseRoleFields n j with
      | error e => exact ⟨e, loop_cons_err n j (l2 ++ ps :: l3) none acc warn e hpf⟩
      | ok role =>
          have hu : role.users = .star := by
            have hraw := rawRoleUsers_of_ok n j role hpf
            rw [hraw] at hpw
            injection hpw
          obtain ⟨us, hus⟩ := hps
          obtain ⟨m, hm⟩ := loop_pending_fails (l2 ++ ps :: l3) n
            (recordSet acc n role) (warnUpd warn n role) ⟨ps, by simp, us, hus⟩
          exact ⟨m, (loop_cons_star n j (l2 ++ ps :: l3) none acc warn role hpf hu).trans hm⟩
  | cons hd tl1 ih =>
      intro pw l2 ps l3 acc warn hpw hps
      obtain ⟨n, j⟩ := hd
      cases hpf : parseRoleFields n j with
      | error e =>
          exact ⟨e, loop_cons_err n j (tl1 ++ pw :: l2 ++ ps :: l3) none acc warn e hpf⟩
      | ok role =>
          cases hu : role.users with
          | star =>
              obtain ⟨us, hus⟩ := hps
              obtain ⟨m, hm⟩ := loop_pending_fails (tl1 ++ pw :: l2 ++ ps :: l3) n
                (recordSet acc n role) (warnUpd warn n role) ⟨ps, by simp, us, hus⟩
              exact ⟨m, (loop_cons_star n j (tl1 ++ pw :: l2 ++ ps :: l3) none acc warn
                role hpf hu).trans hm⟩
          | list us2 =>
              obtain ⟨m, hm⟩ := ih pw l2 ps l3 (recordSet acc n role) (warnUpd warn n role)
                hpw hps
              exact ⟨m, (loop_cons_list_none n j (tl1 ++ pw :: l2 ++ ps :: l3) acc warn
                role us2 hpf hu).trans hm⟩

/-- As `loop_none_fails`, but with structurally valid entries the failure is
exactly the ordering diagnostic naming a wildcard role and a later
specific-users role of the object. -/
theorem loop_none_ordering :
    ∀ (l1 : List (Str × Json)) (pw : Str × Json) (l2 : List (Str × Json))
      (ps : Str × Json) (l3 : List (Str × Json)) (acc : List (Str × RBACRoleConfig))
      (warn : List Str),
      (∀ e ∈ l1 ++ pw :: l2 ++ ps :: l3, (parseRoleFields e.1 e.2).isOk = true) →
      rawRoleUsers pw = some .star →
      (∃ us, rawRoleUsers ps = some (.list us)) →
      ∃ w r, namesOrderedPair (l1 ++ pw :: l2 ++ ps :: l3) w r ∧
        parseRolesLoop (l1 ++ pw :: l2 ++ ps :: l3) none acc warn =
          .error (orderingError w r) := by
  intro l1
  induction l1 with
  | nil =>
      intro pw l2 ps l3 acc warn hok hpw hps
      obtain ⟨n, j⟩ := pw
      obtain ⟨role, hpf⟩ := except_isOk_exists (hok (n, j) (by simp))
      have hu : role.users = .star := by
        have hraw := rawRoleUsers_of_ok n j role hpf
        rw [hraw] at hpw
        injection hpw
      obtain ⟨us, hus⟩ := hps
      obtain ⟨e2, he2, hus2, herr⟩ := loop_pending_ordering (l2 ++ ps :: l3) n
        (recordSet acc n role) (warnUpd warn n role)
        (fun e3 he3 => hok e3 (List.mem_cons_of_mem _ he3)) ⟨ps, by simp, us, hus⟩
      obtain ⟨s, t, hst⟩ := List.append_of_mem he2
      refine ⟨n, e2.1, ⟨[], (n, j), s, e2, t, ?_, rfl, hpw, rfl, hus2⟩, ?_⟩
      · simp only [List.nil_append, List.cons_append, List.append_assoc, hst]
      · exact (loop_cons_star n j (l2 ++ ps :: l3) none acc warn role hpf hu).trans herr
  | cons hd tl1 ih =>
      intro pw l2 ps l3 acc warn hok hpw hps
      obtain ⟨n, j⟩ := hd
      obtain ⟨role, hpf⟩ := except_isOk_exists (hok (n, j) (by simp))
      cases hu : role.users with
      | star =>
          have hraw := rawRoleUsers_of_ok n j role hpf
          obtain ⟨us, hus⟩ := hps
          obtain ⟨e2, he2, hus2, herr⟩ := loop_pending_ordering
            (tl1 ++ pw :: l2 ++ ps :: l3) n (recordSet acc n role) (warnUpd warn n role)
            (fun e3 he3 => hok e3 (List.mem_cons_of_mem _ he3)) ⟨ps, by simp, us, hus⟩
          obtain ⟨s, t, hst⟩ := List.append_of_mem he2
          simp only [List.cons_append, List.append_assoc] at hst
          refine ⟨n, e2.1, ⟨[], (n, j), s, e2, t, ?_, rfl, by rw [hraw, hu], rfl, hus2⟩, ?_⟩
          · simp only [List.nil_append, List.cons_append, List.append_assoc, hst]
          · exact (loop_cons_star n j (tl1 ++ pw :: l2 ++ ps :: l3) none acc warn role
              hpf hu).trans herr
      | list us2 =>
          obtain ⟨w, r, hpair, herr⟩ := ih pw l2 ps l3 (recordSet acc n role)
            (warnUpd warn n role) (fun e3 he3 => hok e3 (List.mem_cons_of_mem _ he3))
            hpw hps
          obtain ⟨m1, e1, m2, e2, m3, hsplit, he1n, he1s, he2n, he2l⟩ := hpair
          refine ⟨w, r, ⟨(n, j) :: m1, e1, m2, e2, m3, ?_, he1n, he1s, he2n, he2l⟩, ?_⟩
          · simp only [List.cons_append, List.append_assoc] at hsplit
            simp only [List.cons_append, List.append_assoc, hsplit]
          · exact (loop_cons_list_none n j (tl1 ++ pw :: l2 ++ ps :: l3) acc warn role us2
              hpf hu).trans herr

/-- A failure of the roles loop is a failure of the whole loader. -/
theorem rbacParse_roles_error (fields rolesFields : List (Str × Json)) (m : Str)
    (hroles : recordGet fields (str "roles") = some (.obj rolesFields))
    (hloop : parseRolesLoop rolesFields none [] [] = .error m) :
    rbacParse (Json.obj fields) = .error m := by
  unfold rbacParse
  rw [show assertObject (Json.obj fields) (str "rbac config") = .ok fields from rfl,
    except_ok_bind, hroles,
    show ((some (Json.obj rolesFields)).getD Json.null) = Json.obj rolesFields from rfl,
    show assertObject (Json.obj rolesFields) (str "rbac config.roles") = .ok rolesFields
      from rfl,
    except_ok_bind, hloop, except_error_bind]

/-- The ordering diagnostic starts with `Role "`. -/
theorem orderingError_headq (w r : Str) : (orderingError w r).head? = some 'R' := rfl

/-- The tools-field diagnostic for role `b` starts with `roles.`. -/
theorem toolsFieldError_b_headq : (toolsFieldError (str "b")).head? = some 'r' := rfl

/-- C4 counterexample: in `docWildcardBadTools` the wildcard-users role `a`
precedes the specific-users role `b`, yet the loader's diagnostic is the
`roles.b.tools` type error (raised before the ordering check of `b`), not an
ordering diagnostic naming both roles — the claim as stated is false. -/
theorem orderingDiagnosticClaim_false : ¬ orderingDiagnosticClaim := by
  intro h
  obtain ⟨w, r, hwr⟩ := h docWildcardBadTools [(str "roles", .obj rolesFieldsBad)]
    rolesFieldsBad rfl rfl [] entryWildcardA [] entryBadToolsB [] rfl
    (by decide) ⟨[str "x"], by decide⟩
  rw [show rbacParse docWildcardBadTools = .error (toolsFieldError (str "b")) from
    by decide] at hwr
  have heq : toolsFieldError (str "b") = orderingError w r := by injection hwr
  have hh := congrArg List.head? heq
  rw [orderingError_headq, toolsFieldError_b_headq] at hh
  exact absurd hh (by decide)

/-- C4 (amended): whenever, in declared iteration order, a wildcard-users
role precedes a specific-users role, the loader fails rather than returning
a Policy; and when additionally every role entry is structurally valid, the
failure is the ordering diagnostic naming a wildcard role and a later
specific-users role. -/
theorem wildcardOrdering_fails :
    ∀ (doc : Json) (fields rolesFields : List (Str × Json)),
      doc = Json.obj fields →
      recordGet fields (str "roles") = some (.obj rolesFields) →
      ∀ (l1 : List (Str × Json)) (pw : Str × Json) (l2 : List (Str × Json))
        (ps : Str × Json) (l3 : List (Str × Json)),
        rolesFields = l1 ++ pw :: l2 ++ ps :: l3 →
        rawRoleUsers pw = some .star →
        (∃ us, rawRoleUsers ps = some (.list us)) →
        (∃ m, rbacParse doc = .error m) ∧
        ((∀ e ∈ rolesFields, (parseRoleFields e.1 e.2).isOk = true) →
          ∃ w r, namesOrderedPair rolesFields w r ∧
            rbacParse doc = .error (orderingError w r)) := by
  intro doc fields rolesFields hdoc hroles l1 pw l2 ps l3 hsplit hpw hps
  subst hdoc
  subst hsplit
  constructor
  · obtain ⟨m, hm⟩ := loop_none_fails l1 pw l2 ps l3 [] [] hpw hps
    exact ⟨m, rbacParse_roles_error fields _ m hroles hm⟩
  · intro hok
    obtain ⟨w, r, hpair, herr⟩ := loop_none_ordering l1 pw l2 ps l3 [] [] hok hpw hps
    exact ⟨w, r, hpair, rbacParse_roles_error fields _ (orderingError w r) hroles herr⟩

/-- Witness for the amended C4: on the structurally valid document the
loader fails with the ordering diagnostic naming roles `a` and `b`. -/
theorem wildcardOrdering_fails_witness :
    ∃ w r, namesOrderedPair rolesFieldsOrdered w r ∧
      rbacParse docWildcardFirst = .error (orderingError w r) :=
  (wildcardOrdering_fails docWildcardFirst [(str "roles", .obj rolesFieldsOrdered)]
    rolesFieldsOrdered rfl rfl [] entryWildcardA [] entryListB [] rfl
    (by decide) ⟨[str "x"], by decide⟩).2 (by decide)
